import Mathlib

/-!
Shallow embedding of `github-tree.go` (repository sbdtu5498/github-tree).

The program is a single-file Go CLI: it resolves configuration from a
persisted settings file (`github-tree-inputs.txt`) merged with command-line
flags, persists the merged settings back, and then recursively fetches and
prints a directory tree from the GitHub Contents API up to a depth bound.

Modelling conventions:
* The GitHub API is an oracle `Api : owner → repo → path → List File`,
  standing for a successful JSON-array response at each requested path.
* Printing is modelled as a `List String` of emitted lines; in the Go code
  each line is produced by `fmt.Printf(indent ++ glyph)` followed by
  `fmt.Println(name)`, so one list element corresponds to one
  newline-terminated line `indent ++ glyph ++ name ++ "\n"` on stdout.
* The network requests issued are collected as a `List Request` in
  chronological order.
* Go `int` values are modelled as `Int` (flag parsing may produce negative
  values, and nothing in the program reduces modulo a word size in a way
  the claims depend on).
* `panic` in Go is modelled by returning the panic message.
-/

namespace GithubTree

/-- Go struct `File { Name, Type string }`: one entry of a Contents API
response. -/
structure File where
  name : String
  type : String
deriving Repr, DecidableEq

/-- One HTTP GET issued by `fetchFilesAndFolders`: the URL is determined by
`owner`, `repo` and `path` (`https://api.github.com/repos/O/R/contents/P`). -/
structure Request where
  owner : String
  repo : String
  path : String
deriving Repr, DecidableEq

/-- The API oracle: for each `(owner, repo, path)` the JSON array of entries
the server answers with. -/
abbrev Api := String → String → String → List File

/-- Go `getFilePrefix`: branch glyph for a file entry. -/
def getFilePrefix (isLast : Bool) : String :=
  if isLast then "└── " else "├── "

/-- Go `getDirPrefix`: branch glyph for a directory entry. -/
def getDirPrefix (isLast : Bool) : String :=
  if isLast then "└── " else "├── "

/-- Go `getIndentPrefix`: continuation glyph appended to `indent` for a
directory's children. -/
def getIndentPrefix (isLast : Bool) : String :=
  if isLast then "    " else "│   "

/-- The loop body of `fetchFilesAndFolders` (`for i, f := range files`).
`recurse` stands for the recursive call at `level+1` (the Go recursion with
`accessToken`, `owner`, `repo`, `maxDepth` unchanged), `total` is
`len(files)`, and `i` is the running index. `isLast := i == len(files)-1`
exactly as in the source. Returns the emitted lines and the requests issued
by the nested calls, in chronological order. -/
def treeLoop (recurse : String → String → List String × List Request)
    (path indent : String) (total : Nat) :
    Nat → List File → List String × List Request
  | _, [] => ([], [])
  | i, f :: rest =>
    let isLast := i == total - 1
    let tail := treeLoop recurse path indent total (i + 1) rest
    if f.type == "file" then
      ((indent ++ getFilePrefix isLast ++ f.name) :: tail.1, tail.2)
    else if f.type == "dir" then
      let sub := recurse (path ++ "/" ++ f.name) (indent ++ getIndentPrefix isLast)
      ((indent ++ getDirPrefix isLast ++ f.name) :: (sub.1 ++ tail.1),
        sub.2 ++ tail.2)
    else
      tail

/-- Fuel-indexed body of `fetchFilesAndFolders`. The fuel is a purely
technical termination measure; `fetchFilesAndFolders` below instantiates it
with `(maxDepth + 1 - level).toNat`, and `fetchFilesAndFolders_eq` proves
the resulting function satisfies exactly the recursion of the Go source
(guard `level > maxDepth`, recursive calls at `level + 1`). -/
def fetchAux (api : Api) (owner repo : String) :
    Nat → String → String → Int → Int → List String × List Request
  | 0, _, _, _, _ => ([], [])
  | gas + 1, path, indent, level, maxDepth =>
    if level > maxDepth then ([], [])
    else
      let files := api owner repo path
      let body := treeLoop
        (fun p ind => fetchAux api owner repo gas p ind (level + 1) maxDepth)
        path indent files.length 0 files
      (body.1, ⟨owner, repo, path⟩ :: body.2)

/-- Go `fetchFilesAndFolders(accessToken, owner, repo, path, indent, level,
maxDepth)`. The access token only decorates the HTTP header and does not
influence control flow, so it is not a parameter of the model. Returns
`(lines printed, requests issued)`. -/
def fetchFilesAndFolders (api : Api) (owner repo path indent : String)
    (level maxDepth : Int) : List String × List Request :=
  fetchAux api owner repo (maxDepth + 1 - level).toNat path indent level maxDepth

/-- `fetchFilesAndFolders` satisfies the recursion of the Go source: it
returns immediately when `level > maxDepth`, and otherwise issues one request
for the current path and runs the entry loop, whose directory case recurses
at `level + 1` with `maxDepth` unchanged. -/
theorem fetchFilesAndFolders_eq (api : Api) (owner repo path indent : String)
    (level maxDepth : Int) :
    fetchFilesAndFolders api owner repo path indent level maxDepth =
      if level > maxDepth then ([], [])
      else
        let files := api owner repo path
        let body := treeLoop
          (fun p ind =>
            fetchFilesAndFolders api owner repo p ind (level + 1) maxDepth)
          path indent files.length 0 files
        (body.1, ⟨owner, repo, path⟩ :: body.2) := by
  by_cases h : level > maxDepth
  · have hz : (maxDepth + 1 - level).toNat = 0 := by omega
    simp [fetchFilesAndFolders, hz, fetchAux, h]
  · have hs : (maxDepth + 1 - level).toNat
        = (maxDepth + 1 - (level + 1)).toNat + 1 := by omega
    simp only [fetchFilesAndFolders, hs, fetchAux, if_neg h]

/-- The persisted settings record, the JSON object stored in
`github-tree-inputs.txt` (fields `owner`, `repo`, `path`, `maxDepth`). -/
structure Settings where
  owner : String
  repo : String
  path : String
  maxDepth : Int
deriving Repr, DecidableEq

/-- The command-line flag values after `flag.Parse()`:
the `O`/`owner`, `R`/`repo`, `P`/`path` flags default to `""`, and the
`M`/`maxDepth` flag defaults to `1`. -/
structure Flags where
  owner : String
  repo : String
  path : String
  maxDepth : Int
deriving Repr, DecidableEq

/-- Panic message of `main` when the stored owner or repo is empty. -/
def ownerRepoEmptyMsg : String :=
  "The 'owner' and 'repo' fields in github-tree-inputs.txt cannot be empty"

/-- Panic message of `main` when `GITHUB_ACCESS_TOKEN` is unset. -/
def tokenMissingMsg : String :=
  "GitHub access token not found in environment"

/-- Observable outcome of one run of `main`:
`written` is the content of `github-tree-inputs.txt` after the run (`none`
when the run did not write it — for a pre-existing file, `none` means it is
left unchanged), `panicMsg` is `some m` when the run aborted with panic
message `m`, `lines` the tree lines printed, `requests` the HTTP requests
issued, in order. -/
structure RunOutcome where
  written : Option Settings
  panicMsg : Option String
  lines : List String
  requests : List Request
deriving Repr, DecidableEq

/-- Go `main`, modelled over: `api` — the Contents API oracle; `file` —
`some st` when `github-tree-inputs.txt` exists and parses to `st`, `none`
when the `os.Stat` call fails (file missing); `flags` — the parsed flag
values; `token` — the value of `GITHUB_ACCESS_TOKEN` (`""` when unset).

File-exists branch (source lines 50–87): read the stored values; panic if
the stored owner or repo is empty; coerce the stored `maxDepth` below 1 up
to 1; overlay each non-empty flag; unconditionally set `maxDepth` to the
flag value; write the merged settings back; panic if the token is empty;
fetch starting at `level = 1`.

File-missing branch (source lines 88–129): coerce `maxDepthFlag` to 1 only
when it equals 0; build the settings from the flags alone; write them;
panic if the token is empty; fetch starting at `level = 1`. -/
def mainModel (api : Api) (file : Option Settings) (flags : Flags)
    (token : String) : RunOutcome :=
  match file with
  | some st =>
    if st.owner = "" ∨ st.repo = "" then
      { written := none, panicMsg := some ownerRepoEmptyMsg,
        lines := [], requests := [] }
    else
      let currentMaxDepth := if st.maxDepth < 1 then 1 else st.maxDepth
      let currentOwner := if flags.owner ≠ "" then flags.owner else st.owner
      let currentRepo := if flags.repo ≠ "" then flags.repo else st.repo
      let currentPath := if flags.path ≠ "" then flags.path else st.path
      let currentMaxDepth := flags.maxDepth
      let merged : Settings :=
        ⟨currentOwner, currentRepo, currentPath, currentMaxDepth⟩
      if token = "" then
        { written := some merged, panicMsg := some tokenMissingMsg,
          lines := [], requests := [] }
      else
        let run := fetchFilesAndFolders api merged.owner merged.repo
          merged.path "" 1 merged.maxDepth
        { written := some merged, panicMsg := none,
          lines := run.1, requests := run.2 }
  | none =>
    let maxDepthFlag := if flags.maxDepth = 0 then 1 else flags.maxDepth
    let newInputs : Settings := ⟨flags.owner, flags.repo, flags.path, maxDepthFlag⟩
    if token = "" then
      { written := some newInputs, panicMsg := some tokenMissingMsg,
        lines := [], requests := [] }
    else
      let run := fetchFilesAndFolders api newInputs.owner newInputs.repo
        newInputs.path "" 1 newInputs.maxDepth
      { written := some newInputs, panicMsg := none,
        lines := run.1, requests := run.2 }

/-- Spec-side sibling loop, written from the spec's words (§4.2): entries
are visited "in the order returned by the API", `isLast` is "last element =
true" (here: the rest of the list is empty, rather than the source's index
arithmetic), a file entry emits one line, a directory entry emits one line
and then its entire subtree is processed before the next sibling
(depth-first, pre-order). -/
def specLoop (recurse : String → String → List String × List Request)
    (path indent : String) : List File → List String × List Request
  | [] => ([], [])
  | f :: rest =>
    let isLast := rest.isEmpty
    let tail := specLoop recurse path indent rest
    if f.type == "file" then
      ((indent ++ getFilePrefix isLast ++ f.name) :: tail.1, tail.2)
    else if f.type == "dir" then
      let sub := recurse (path ++ "/" ++ f.name) (indent ++ getIndentPrefix isLast)
      ((indent ++ getDirPrefix isLast ++ f.name) :: (sub.1 ++ tail.1),
        sub.2 ++ tail.2)
    else
      tail

/-- Fuel-indexed body of the spec-side traversal `specWalk`. -/
def specWalkAux (api : Api) (owner repo : String) :
    Nat → String → String → Int → Int → List String × List Request
  | 0, _, _, _, _ => ([], [])
  | gas + 1, path, indent, level, maxDepth =>
    if level > maxDepth then ([], [])
    else
      let files := api owner repo path
      let body := specLoop
        (fun p ind => specWalkAux api owner repo gas p ind (level + 1) maxDepth)
        path indent files
      (body.1, ⟨owner, repo, path⟩ :: body.2)

/-- Spec-side traversal, written from the spec's words (§4.2): one request
per visited directory, recursion bounded by `level > maxDepth`, children
processed depth-first pre-order with `isLast` true exactly for the final
element of each sibling list. -/
def specWalk (api : Api) (owner repo path indent : String)
    (level maxDepth : Int) : List String × List Request :=
  specWalkAux api owner repo (maxDepth + 1 - level).toNat path indent level maxDepth

/-- The two branch-glyph helpers of the source are extensionally equal:
files and directories are rendered with the same glyphs. -/
theorem getDirPrefix_eq_getFilePrefix (b : Bool) :
    getDirPrefix b = getFilePrefix b := by
  cases b <;> rfl

/-- The source's index-based `isLast` (`i == len(files)-1`) agrees with the
spec's "last element = true" whenever the loop processes a suffix of the
original list, i.e. `total = i + files.length`. -/
theorem treeLoop_eq_specLoop
    (recurse : String → String → List String × List Request)
    (path indent : String) :
    ∀ (files : List File) (i total : Nat), total = i + files.length →
      treeLoop recurse path indent total i files
        = specLoop recurse path indent files
  | [], _, _, _ => rfl
  | f :: rest, i, total, htot => by
    have hlast : (i == total - 1) = rest.isEmpty := by
      cases rest with
      | nil =>
        simp only [List.length_cons, List.length_nil] at htot
        simp only [List.isEmpty_nil]
        rw [beq_iff_eq]
        omega
      | cons g gs =>
        simp only [List.length_cons] at htot
        simp only [List.isEmpty_cons]
        rw [beq_eq_false_iff_ne]
        omega
    have ih := treeLoop_eq_specLoop recurse path indent rest (i + 1) total
      (by simp only [List.length_cons] at htot; omega)
    simp only [treeLoop, specLoop, hlast, ih]

/-- Every request produced by the sibling loop comes from one of the nested
recursive calls. -/
theorem treeLoop_requests
    (recurse : String → String → List String × List Request)
    (path indent : String) :
    ∀ (files : List File) (i total : Nat) (req : Request),
      req ∈ (treeLoop recurse path indent total i files).2 →
      ∃ p ind, req ∈ (recurse p ind).2
  | [], _, _, _, h => absurd h (by simp [treeLoop])
  | f :: rest, i, total, req, h => by
    simp only [treeLoop] at h
    by_cases hf : (f.type == "file") = true
    · rw [if_pos hf] at h
      exact treeLoop_requests recurse path indent rest (i + 1) total req h
    · rw [if_neg hf] at h
      by_cases hd : (f.type == "dir") = true
      · rw [if_pos hd] at h
        rcases List.mem_append.mp h with hsub | htail
        · exact ⟨_, _, hsub⟩
        · exact treeLoop_requests recurse path indent rest (i + 1) total req htail
      · rw [if_neg hd] at h
        exact treeLoop_requests recurse path indent rest (i + 1) total req h

/-- Every request issued by `fetchAux` targets the `owner`/`repo` it was
called with. -/
theorem fetchAux_requests (api : Api) (owner repo : String) :
    ∀ (gas : Nat) (path indent : String) (level maxDepth : Int) (req : Request),
      req ∈ (fetchAux api owner repo gas path indent level maxDepth).2 →
      req.owner = owner ∧ req.repo = repo
  | 0, _, _, _, _, _, h => absurd h (by simp [fetchAux])
  | gas + 1, path, indent, level, maxDepth, req, h => by
    simp only [fetchAux] at h
    by_cases hlv : level > maxDepth
    · rw [if_pos hlv] at h
      simp at h
    · rw [if_neg hlv] at h
      simp only [List.mem_cons] at h
      rcases h with hhead | hbody
      · subst hhead; exact ⟨rfl, rfl⟩
      · obtain ⟨p, ind, hmem⟩ := treeLoop_requests _ path indent
          (api owner repo path) 0 (api owner repo path).length req hbody
        exact fetchAux_requests api owner repo gas p ind (level + 1) maxDepth req hmem

/-- Every line produced by the sibling loop has the shape
`prefix ++ glyph ++ name`, provided the nested recursive calls only produce
lines of that shape. -/
theorem treeLoop_lines
    (recurse : String → String → List String × List Request)
    (path indent : String)
    (hrec : ∀ p ind l, l ∈ (recurse p ind).1 →
      ∃ pre b nm, l = pre ++ getFilePrefix b ++ nm) :
    ∀ (files : List File) (i total : Nat) (line : String),
      line ∈ (treeLoop recurse path indent total i files).1 →
      ∃ pre b nm, line = pre ++ getFilePrefix b ++ nm
  | [], _, _, _, h => absurd h (by simp [treeLoop])
  | f :: rest, i, total, line, h => by
    simp only [treeLoop] at h
    by_cases hf : (f.type == "file") = true
    · rw [if_pos hf] at h
      rcases List.mem_cons.mp h with hhead | htail
      · exact ⟨indent, _, f.name, hhead⟩
      · exact treeLoop_lines recurse path indent hrec rest (i + 1) total line htail
    · rw [if_neg hf] at h
      by_cases hd : (f.type == "dir") = true
      · rw [if_pos hd] at h
        rcases List.mem_cons.mp h with hhead | hrest
        · exact ⟨indent, (i == total - 1), f.name,
            by rw [hhead, getDirPrefix_eq_getFilePrefix]⟩
        · rcases List.mem_append.mp hrest with hsub | htail
          · exact hrec _ _ line hsub
          · exact treeLoop_lines recurse path indent hrec rest (i + 1) total line htail
      · rw [if_neg hd] at h
        exact treeLoop_lines recurse path indent hrec rest (i + 1) total line h

/-- Every line printed by `fetchAux` has the shape
`prefix ++ glyph ++ name`. -/
theorem fetchAux_lines (api : Api) (owner repo : String) :
    ∀ (gas : Nat) (path indent : String) (level maxDepth : Int) (line : String),
      line ∈ (fetchAux api owner repo gas path indent level maxDepth).1 →
      ∃ pre b nm, line = pre ++ getFilePrefix b ++ nm
  | 0, _, _, _, _, _, h => absurd h (by simp [fetchAux])
  | gas + 1, path, indent, level, maxDepth, line, h => by
    simp only [fetchAux] at h
    by_cases hlv : level > maxDepth
    · rw [if_pos hlv] at h
      simp at h
    · rw [if_neg hlv] at h
      exact treeLoop_lines _ path indent
        (fun p ind l hl =>
          fetchAux_lines api owner repo gas p ind (level + 1) maxDepth l hl)
        (api owner repo path) 0 (api owner repo path).length line h

/-- `fetchAux` and the spec-side `specWalkAux` agree: the index-based
`isLast` computation of the source coincides with the spec's
last-element test throughout the traversal. -/
theorem fetchAux_eq_specWalkAux (api : Api) (owner repo : String) :
    ∀ (gas : Nat) (path indent : String) (level maxDepth : Int),
      fetchAux api owner repo gas path indent level maxDepth
        = specWalkAux api owner repo gas path indent level maxDepth
  | 0, _, _, _, _ => rfl
  | gas + 1, path, indent, level, maxDepth => by
    simp only [fetchAux, specWalkAux]
    by_cases hlv : level > maxDepth
    · rw [if_pos hlv, if_pos hlv]
    · rw [if_neg hlv, if_neg hlv]
      have hrec : (fun p ind =>
            fetchAux api owner repo gas p ind (level + 1) maxDepth)
          = (fun p ind =>
            specWalkAux api owner repo gas p ind (level + 1) maxDepth) := by
        funext p ind
        exact fetchAux_eq_specWalkAux api owner repo gas p ind (level + 1) maxDepth
      rw [treeLoop_eq_specLoop _ path indent (api owner repo path) 0
        (api owner repo path).length (by simp), hrec]

/-- An API oracle answering every request with the empty listing. -/
def emptyApi : Api := fun _ _ _ => []

/-- The synthetic API of spec §8: the root listing is
`[{A,dir},{B,file}]`; every other path (in particular `/A`) holds one file
`C`, so any fetch into `A` would be visible both as an extra request and as
an extra output line. -/
def twoEntryApi : Api := fun _ _ p =>
  if p = "" then [⟨"A", "dir"⟩, ⟨"B", "file"⟩] else [⟨"C", "file"⟩]

/-- An API oracle whose root listing ends in an entry of type `symlink`:
`[{A,file},{B,dir},{S,symlink}]`; every other path holds one file `C`. -/
def symlinkApi : Api := fun _ _ p =>
  if p = "" then [⟨"A", "file"⟩, ⟨"B", "dir"⟩, ⟨"S", "symlink"⟩]
  else [⟨"C", "file"⟩]

/-- C1 counterexample: with a stored settings file whose owner is empty but
repo is `"r"`, and a non-empty owner flag `"x"`, the run panics with the
owner/repo message (and does not even rewrite the file): the emptiness
check runs on the stored values, before the flag overlay, so the claim's
"a run with an empty stored owner but a non-empty owner flag does not
fail" is false. -/
theorem emptyStoredOwner_nonemptyFlag_panics :
    (mainModel emptyApi (some ⟨"", "r", "", 1⟩) ⟨"x", "", "", 1⟩ "t").panicMsg
        = some ownerRepoEmptyMsg
    ∧ (mainModel emptyApi (some ⟨"", "r", "", 1⟩) ⟨"x", "", "", 1⟩ "t").written
        = none := by
  exact ⟨rfl, rfl⟩

/-- C1 (amended): when the settings file exists, the run panics with the
owner/repo message if and only if the STORED owner or repo is empty; the
check precedes the flag overlay, so flag values are irrelevant to it. -/
theorem fileExists_panic_iff_stored_empty (api : Api) (st : Settings)
    (flags : Flags) (token : String) :
    (mainModel api (some st) flags token).panicMsg = some ownerRepoEmptyMsg
      ↔ (st.owner = "" ∨ st.repo = "") := by
  by_cases hempty : st.owner = "" ∨ st.repo = ""
  · simp [mainModel, hempty]
  · have hne : tokenMissingMsg ≠ ownerRepoEmptyMsg := by decide
    by_cases ht : token = ""
    · simp only [mainModel, if_neg hempty, if_pos ht]
      constructor
      · intro hx
        exact absurd (Option.some.inj hx) hne
      · intro hx
        exact absurd hx hempty
    · simp only [mainModel, if_neg hempty, if_neg ht]
      constructor
      · intro hx
        exact absurd hx (by simp)
      · intro hx
        exact absurd hx hempty

/-- C2 counterexample: with no settings file, empty owner/repo flags and a
token present, the run issues an HTTP request whose owner and repo are both
empty, and raises no fatal error at all — the file-missing branch has no
emptiness check, so "a fatal error before any HTTP request" is false. -/
theorem missingFile_emptyFlags_request_issued :
    (mainModel emptyApi none ⟨"", "", "", 1⟩ "t").requests = [⟨"", "", ""⟩]
    ∧ (mainModel emptyApi none ⟨"", "", "", 1⟩ "t").panicMsg = none := by
  exact ⟨rfl, rfl⟩

/-- C2 (amended): only the file-exists branch guarantees the invariant —
there, every HTTP request issued during the run carries a non-empty owner
and a non-empty repo (emptiness of the stored values panics before any
fetch). -/
theorem fileExists_requests_nonempty (api : Api) (st : Settings)
    (flags : Flags) (token : String) (req : Request)
    (h : req ∈ (mainModel api (some st) flags token).requests) :
    req.owner ≠ "" ∧ req.repo ≠ "" := by
  by_cases hempty : st.owner = "" ∨ st.repo = ""
  · simp [mainModel, hempty] at h
  · by_cases ht : token = ""
    · simp [mainModel, hempty, ht] at h
    · simp only [mainModel, if_neg hempty, if_neg ht,
        fetchFilesAndFolders] at h
      push_neg at hempty
      obtain ⟨ho, hr⟩ := fetchAux_requests api _ _ _ _ _ _ _ req h
      refine ⟨?_, ?_⟩
      · rw [ho]
        by_cases hf : flags.owner = ""
        · simpa [hf] using hempty.1
        · simp [hf]
      · rw [hr]
        by_cases hf : flags.repo = ""
        · simpa [hf] using hempty.2
        · simp [hf]

/-- C2 witness: instantiating the amended theorem at a concrete run with a
stored file `{owner := "o", repo := "r"}` and the single request it
issues. -/
theorem fileExists_requests_nonempty_witness :
    (Request.mk "o" "r" "").owner ≠ "" ∧ (Request.mk "o" "r" "").repo ≠ "" :=
  fileExists_requests_nonempty emptyApi ⟨"o", "r", "", 1⟩ ⟨"", "", "", 1⟩
    "t" ⟨"o", "r", ""⟩ (by decide)

/-- C3 counterexample: with an existing settings file storing
`maxDepth = 5` and the maxDepth flag at `0`, the persisted settings end up
with `maxDepth = 0` (the stored value is coerced but then unconditionally
overwritten by the flag, which is not coerced in this branch), and the run
issues no request at all (level 1 > maxDepth 0) — so "the resolved
maxDepth that is persisted and used for fetching satisfies maxDepth ≥ 1"
is false. -/
theorem persisted_maxDepth_zero :
    (mainModel emptyApi (some ⟨"o", "r", "p", 5⟩) ⟨"", "", "", 0⟩ "t").written
        = some ⟨"o", "r", "p", 0⟩
    ∧ (mainModel emptyApi (some ⟨"o", "r", "p", 5⟩) ⟨"", "", "", 0⟩
        "t").requests = [] := by
  exact ⟨rfl, rfl⟩

/-- C3 (amended): in the file-exists branch the resolved maxDepth equals
the flag value, whatever it is (the coercion applies only to the stored
value, which is then discarded); in the file-missing branch the flag value
is coerced to 1 exactly when it equals 0 (negative values pass through). -/
theorem maxDepth_resolution (api : Api) (flags : Flags) (token : String) :
    (∀ s, (mainModel api none flags token).written = some s →
        s.maxDepth = if flags.maxDepth = 0 then 1 else flags.maxDepth)
    ∧ (∀ st s, (mainModel api (some st) flags token).written = some s →
        s.maxDepth = flags.maxDepth) := by
  constructor
  · intro s hs
    by_cases ht : token = "" <;>
      simp only [mainModel, if_pos, if_neg, ht, if_true, if_false,
        reduceIte, Option.some.injEq] at hs <;>
      rw [← hs]
  · intro st s hs
    by_cases hempty : st.owner = "" ∨ st.repo = ""
    · simp [mainModel, hempty] at hs
    · by_cases ht : token = "" <;>
        simp only [mainModel, if_neg hempty, ht, reduceIte,
          Option.some.injEq] at hs <;>
        rw [← hs]

/-- C3 witness: the amended theorem applied to a file-missing run with flag
0 (coerced to 1) and to a file-exists run with stored maxDepth 5 and flag 0
(resolved to 0). -/
theorem maxDepth_resolution_witness :
    ((Settings.mk "" "" "" 1).maxDepth
        = if (0 : Int) = 0 then 1 else (0 : Int))
    ∧ (Settings.mk "o" "r" "p" 0).maxDepth = (0 : Int) :=
  ⟨(maxDepth_resolution emptyApi ⟨"", "", "", 0⟩ "t").1 ⟨"", "", "", 1⟩
      (by decide),
    (maxDepth_resolution emptyApi ⟨"", "", "", 0⟩ "t").2 ⟨"o", "r", "p", 5⟩
      ⟨"o", "r", "p", 0⟩ (by decide)⟩

/-- C4: for any stored settings with non-empty owner and repo, a run with
empty owner/repo/path flags and maxDepth flag `m` rewrites the file with the
stored owner, repo and path unchanged and maxDepth set to `m`, regardless of
the stored maxDepth; when the token is present, the fetch of that run uses
exactly those preserved values (so the in-memory resolved settings coincide
with the rewritten file). -/
theorem second_run_preserves_settings (api : Api) (st : Settings) (m : Int)
    (token : String) (ho : st.owner ≠ "") (hr : st.repo ≠ "") :
    (mainModel api (some st) ⟨"", "", "", m⟩ token).written
        = some ⟨st.owner, st.repo, st.path, m⟩
    ∧ (token ≠ "" →
        ((mainModel api (some st) ⟨"", "", "", m⟩ token).lines,
          (mainModel api (some st) ⟨"", "", "", m⟩ token).requests)
          = fetchFilesAndFolders api st.owner st.repo st.path "" 1 m) := by
  have hempty : ¬(st.owner = "" ∨ st.repo = "") := by
    push_neg
    exact ⟨ho, hr⟩
  by_cases ht : token = ""
  · refine ⟨by simp [mainModel, hempty, ht], fun h => absurd ht h⟩
  · exact ⟨by simp [mainModel, hempty, ht], fun _ => by simp [mainModel, hempty, ht]⟩

/-- C4 witness: the theorem at stored settings `{o, r, p, 7}`, flag
maxDepth 3 and token present. -/
theorem second_run_preserves_settings_witness :
    (mainModel emptyApi (some ⟨"o", "r", "p", 7⟩) ⟨"", "", "", 3⟩ "t").written
        = some ⟨"o", "r", "p", 3⟩
    ∧ (("t" : String) ≠ "" →
        ((mainModel emptyApi (some ⟨"o", "r", "p", 7⟩) ⟨"", "", "", 3⟩
            "t").lines,
          (mainModel emptyApi (some ⟨"o", "r", "p", 7⟩) ⟨"", "", "", 3⟩
            "t").requests)
          = fetchFilesAndFolders emptyApi "o" "r" "p" "" 1 3) :=
  second_run_preserves_settings emptyApi ⟨"o", "r", "p", 7⟩ 3 "t"
    (by decide) (by decide)

/-- C5: `fetchFilesAndFolders` is a no-op — no request, no output — whenever
`level > maxDepth` (first conjunct), and it satisfies the source's
recursion: below the bound it issues one request and runs the sibling loop,
whose recursive calls are at `level + 1` with `maxDepth` unchanged (second
conjunct). Totality of the Lean function certifies that this recursion
terminates for every `maxDepth`. -/
theorem fetch_noop_beyond_bound (api : Api) (owner repo path indent : String)
    (level maxDepth : Int) :
    (level > maxDepth →
      fetchFilesAndFolders api owner repo path indent level maxDepth
        = ([], []))
    ∧ fetchFilesAndFolders api owner repo path indent level maxDepth
        = (if level > maxDepth then ([], [])
          else
            let files := api owner repo path
            let body := treeLoop
              (fun p ind =>
                fetchFilesAndFolders api owner repo p ind (level + 1) maxDepth)
              path indent files.length 0 files
            (body.1, ⟨owner, repo, path⟩ :: body.2)) :=
  ⟨fun h => by rw [fetchFilesAndFolders_eq, if_pos h],
    fetchFilesAndFolders_eq api owner repo path indent level maxDepth⟩

/-- C5 witness: the no-op conjunct at `level = 2 > 1 = maxDepth`, on an API
oracle that would answer any request. -/
theorem fetch_noop_beyond_bound_witness :
    fetchFilesAndFolders twoEntryApi "o" "r" "" "" 2 1 = ([], []) :=
  (fetch_noop_beyond_bound twoEntryApi "o" "r" "" "" 2 1).1 (by decide)

/-- C6: with `maxDepth = 1`, empty starting path and the root listing
`[{A,dir},{B,file}]`, the run prints exactly `├── A` then `└── B` and issues
exactly one request (for the root); no request for `/A` appears even though
`twoEntryApi` would answer it with a further file. -/
theorem fetch_depth_one_output :
    fetchFilesAndFolders twoEntryApi "o" "r" "" "" 1 1
      = (["├── A", "└── B"], [⟨"o", "r", ""⟩]) := by
  rfl

/-- C7: the traversal of the source — index-based `isLast`
(`i == len(files)-1`), one emitted line per file entry, and for each
directory entry one line followed by its whole subtree (path extended by
`/name`, indent extended by the continuation glyph of that directory's
`isLast`, level+1) before the next sibling — coincides, for every API
response function and every argument, with the spec-side depth-first
pre-order walk `specWalk`, whose `isLast` is "last element = true". -/
theorem fetch_eq_specWalk (api : Api) (owner repo path indent : String)
    (level maxDepth : Int) :
    fetchFilesAndFolders api owner repo path indent level maxDepth
      = specWalk api owner repo path indent level maxDepth :=
  fetchAux_eq_specWalkAux api owner repo (maxDepth + 1 - level).toNat
    path indent level maxDepth

/-- C8: the branch glyphs are `└── ` for last and `├── ` otherwise,
identical for files (`getFilePrefix`) and directories (`getDirPrefix`); the
continuation glyph is four spaces for last and `│   ` otherwise; and every
line ever printed by `fetchFilesAndFolders` has the shape
`indent ++ glyph ++ name` (each such line is emitted newline-terminated:
`fmt.Printf` writes `indent ++ glyph`, `fmt.Println` writes
`name ++ "\n"`). -/
theorem renderer_glyphs_and_line_shape :
    getFilePrefix true = "└── " ∧ getFilePrefix false = "├── "
    ∧ getDirPrefix true = "└── " ∧ getDirPrefix false = "├── "
    ∧ getIndentPrefix true = "    " ∧ getIndentPrefix false = "│   "
    ∧ (∀ b, getDirPrefix b = getFilePrefix b)
    ∧ (∀ (api : Api) (owner repo path indent : String) (level maxDepth : Int)
        (line : String),
        line ∈ (fetchFilesAndFolders api owner repo path indent
          level maxDepth).1 →
        ∃ pre b nm, line = pre ++ getFilePrefix b ++ nm) := by
  refine ⟨rfl, rfl, rfl, rfl, rfl, rfl, getDirPrefix_eq_getFilePrefix, ?_⟩
  intro api owner repo path indent level maxDepth line h
  exact fetchAux_lines api owner repo (maxDepth + 1 - level).toNat
    path indent level maxDepth line h

/-- C8 witness: the line-shape conjunct at the first line printed by the
depth-one run on `twoEntryApi`. -/
theorem renderer_glyphs_and_line_shape_witness :
    ∃ pre b nm, ("├── A" : String) = pre ++ getFilePrefix b ++ nm :=
  renderer_glyphs_and_line_shape.2.2.2.2.2.2.2 twoEntryApi "o" "r" "" ""
    1 1 "├── A" (by decide)

/-- C9: an entry whose type is neither `file` nor `dir` produces no line and
no recursion, but the loop still advances the index against the unchanged
total list length used for `isLast` (first conjunct); consequently, on a
root listing `[{A,file},{B,dir},{S,symlink}]` at depth 1 the output is
`├── A`, `├── B` — the last rendered sibling `B` does not receive `└── `
because the skipped trailing symlink still counts as the last element
(second conjunct). -/
theorem other_types_skipped_but_counted :
    (∀ (recurse : String → String → List String × List Request)
        (path indent : String) (total i : Nat) (f : File) (rest : List File),
        f.type ≠ "file" → f.type ≠ "dir" →
        treeLoop recurse path indent total i (f :: rest)
          = treeLoop recurse path indent total (i + 1) rest)
    ∧ fetchFilesAndFolders symlinkApi "o" "r" "" "" 1 1
        = (["├── A", "├── B"], [⟨"o", "r", ""⟩]) := by
  constructor
  · intro recurse path indent total i f rest hf hd
    simp only [treeLoop]
    rw [if_neg (by simpa using hf), if_neg (by simpa using hd)]
  · rfl

/-- C9 witness: the skip equation at a concrete trailing symlink entry. -/
theorem other_types_skipped_but_counted_witness :
    treeLoop (fun _ _ => ([], [])) "" "" 3 2 [⟨"S", "symlink"⟩]
      = treeLoop (fun _ _ => ([], [])) "" "" 3 3 [] :=
  other_types_skipped_but_counted.1 (fun _ _ => ([], [])) "" "" 3 2
    ⟨"S", "symlink"⟩ [] (by decide) (by decide)

/-- C10: the merged (or newly built) settings are written to the file
before the `GITHUB_ACCESS_TOKEN` check, so every run that aborts with the
missing-token panic has already created or overwritten the settings file,
while issuing no request and printing nothing. -/
theorem settings_written_before_token_check (api : Api)
    (file : Option Settings) (flags : Flags) (token : String)
    (h : (mainModel api file flags token).panicMsg = some tokenMissingMsg) :
    (∃ s, (mainModel api file flags token).written = some s)
    ∧ (mainModel api file flags token).requests = []
    ∧ (mainModel api file flags token).lines = [] := by
  cases file with
  | none =>
    by_cases ht : token = ""
    · simp [mainModel, ht]
    · simp [mainModel, ht] at h
  | some st =>
    by_cases hempty : st.owner = "" ∨ st.repo = ""
    · rw [show (mainModel api (some st) flags token).panicMsg
          = some ownerRepoEmptyMsg by simp [mainModel, hempty]] at h
      exact absurd (Option.some.inj h) (by decide)
    · by_cases ht : token = ""
      · simp [mainModel, hempty, ht]
      · simp [mainModel, hempty, ht] at h

/-- C10 witness: a run with no settings file, empty flags and no token
aborts with the missing-token panic, yet has written the settings file. -/
theorem settings_written_before_token_check_witness :
    (∃ s, (mainModel emptyApi none ⟨"", "", "", 1⟩ "").written = some s)
    ∧ (mainModel emptyApi none ⟨"", "", "", 1⟩ "").requests = []
    ∧ (mainModel emptyApi none ⟨"", "", "", 1⟩ "").lines = [] :=
  settings_written_before_token_check emptyApi none ⟨"", "", "", 1⟩ ""
    (by decide)

end GithubTree
